import Mathlib

/-
Verification development for the AI-Study-Buddy RAG pipeline.
The Python sources (document_processor.py, vector_store.py, rag_engine.py)
are shallowly embedded below: text is a list of characters, machine state is
passed explicitly, and external backends (embedding, generation, the vector
index) appear as oracle parameters.
-/

set_option linter.unusedVariables false

namespace StudyBuddy

/-- Python ASCII whitespace predicate, matching str.strip and the regex class
for whitespace on ASCII input. -/
def pyIsSpace (c : Char) : Bool :=
  c = ' ' || c = '\t' || c = '\n' || c = '\r' || c = '\x0b' || c = '\x0c'

theorem dropWhile_len_le (p : Char → Bool) (l : List Char) :
    (l.dropWhile p).length ≤ l.length :=
  (List.dropWhile_sublist p).length_le

/-- Python str.strip with no arguments, on ASCII text. -/
def pyStrip (s : List Char) : List Char :=
  ((s.dropWhile pyIsSpace).reverse.dropWhile pyIsSpace).reverse

/-- Splitting on two or more consecutive newlines, as the re.split call on
the paragraph-separator pattern in smart_chunk_text. The fuel argument makes
the recursion structural; every step consumes at least one character, so
fuel equal to the input length never runs out. -/
def splitParasAux : Nat → List Char → List Char → List (List Char)
  | _, [], acc => [acc.reverse]
  | 0, _, acc => [acc.reverse]
  | fuel + 1, '\n' :: '\n' :: rest, acc =>
    acc.reverse :: splitParasAux fuel (rest.dropWhile (fun c => c = '\n')) []
  | fuel + 1, c :: rest, acc => splitParasAux fuel rest (c :: acc)

def splitParas (s : List Char) : List (List Char) :=
  splitParasAux s.length s []

/-- Conversion of a digit list to a number, as Python int on a digit string. -/
def digitsToNat (ds : List Char) : Nat :=
  ds.foldl (fun n c => 10 * n + (c.toNat - 48)) 0

/-- Matching the page-marker pattern (literal open bracket, Page, a space, one
or more digits, close bracket) at the start of a paragraph, as the re.match
call in smart_chunk_text; returns the page number on a match. -/
def pageMatch : List Char → Option Nat
  | '[' :: 'P' :: 'a' :: 'g' :: 'e' :: ' ' :: rest =>
    match rest.takeWhile Char.isDigit, rest.dropWhile Char.isDigit with
    | [], _ => none
    | _ :: _, ']' :: _ => some (digitsToNat (rest.takeWhile Char.isDigit))
    | _ :: _, _ => none
  | _ => none

/-- One step of the page-marker substitution: when the text starts with a
page marker followed by optional whitespace, return the remainder. -/
def dropMarker : List Char → Option (List Char)
  | '[' :: 'P' :: 'a' :: 'g' :: 'e' :: ' ' :: rest =>
    match rest.takeWhile Char.isDigit, rest.dropWhile Char.isDigit with
    | [], _ => none
    | _ :: _, ']' :: r2 => some (r2.dropWhile pyIsSpace)
    | _ :: _, _ => none
  | _ => none

/-- Global substitution removing every page-marker occurrence together with
trailing whitespace, as the re.sub call in smart_chunk_text. Every step
consumes at least one character, so fuel equal to the input length never
runs out. -/
def subPageMarkersAux : Nat → List Char → List Char
  | _, [] => []
  | 0, s => s
  | fuel + 1, c :: rest =>
    match dropMarker (c :: rest) with
    | some r => subPageMarkersAux fuel r
    | none => c :: subPageMarkersAux fuel rest

def subPageMarkers (s : List Char) : List Char :=
  subPageMarkersAux s.length s

/-- Sentence-terminating punctuation recognized by the sentence-split pattern. -/
def isSentEnd (c : Char) : Bool := c = '.' || c = '!' || c = '?'

def headIsSpace : List Char → Bool
  | c :: _ => pyIsSpace c
  | [] => false

/-- Splitting on whitespace runs preceded by sentence punctuation, as the
re.split call in the long-paragraph splitter (the lookbehind keeps the
punctuation on the left part, the whitespace run is consumed). Every step
consumes at least one character, so fuel equal to the input length never
runs out. -/
def splitSentencesAux : Nat → List Char → List Char → List (List Char)
  | _, [], acc => [acc.reverse]
  | 0, _, acc => [acc.reverse]
  | fuel + 1, c :: rest, acc =>
    if isSentEnd c && headIsSpace rest then
      (acc.reverse ++ [c]) :: splitSentencesAux fuel (rest.dropWhile pyIsSpace) []
    else
      splitSentencesAux fuel rest (c :: acc)

def splitSentences (s : List Char) : List (List Char) :=
  splitSentencesAux s.length s []

/-- Embedding of document_processor._get_overlap_text: the last overlap_chars
characters, advanced past the first space when that space is not at index 0.
Python slicing with negative index 0 yields the whole string, which the
zero case of the inner branch mirrors. -/
def get_overlap_text (text : List Char) (overlap_chars : Nat) : List Char :=
  if text.length ≤ overlap_chars then text
  else
    let overlap_text :=
      if overlap_chars = 0 then text else text.drop (text.length - overlap_chars)
    match overlap_text.findIdx? (fun c => c = ' ') with
    | some i => if 0 < i then overlap_text.drop (i + 1) else overlap_text
    | none => overlap_text

/-- A chunk record as produced by the chunker: text, page and document name. -/
structure Chunk where
  text : List Char
  page : Nat
  document : List Char
deriving DecidableEq, Repr

/-- Embedding of document_processor._split_long_paragraph, looping over the
sentence list with the accumulated chunks and the current buffer. -/
def splitLongAux (page : Nat) (document : List Char) (chunk_size overlap : Nat) :
    List (List Char) → List Chunk → List Char → List Chunk
  | [], chunks, current =>
    if pyStrip current ≠ [] then chunks ++ [⟨pyStrip current, page, document⟩]
    else chunks
  | sentence :: rest, chunks, current =>
    if current.length + sentence.length + 1 ≤ chunk_size then
      splitLongAux page document chunk_size overlap rest chunks
        (if current ≠ [] then current ++ ' ' :: sentence else sentence)
    else
      let chunks2 :=
        if pyStrip current ≠ [] then chunks ++ [⟨pyStrip current, page, document⟩]
        else chunks
      let current2 :=
        if current ≠ [] ∧ 0 < overlap then
          get_overlap_text current overlap ++ ' ' :: sentence
        else sentence
      splitLongAux page document chunk_size overlap rest chunks2 current2

def split_long_paragraph (paragraph : List Char) (page : Nat) (document : List Char)
    (chunk_size overlap : Nat) : List Chunk :=
  splitLongAux page document chunk_size overlap (splitSentences paragraph) [] []

/-- Embedding of the paragraph loop of document_processor.smart_chunk_text.
State: accumulated chunks, current buffer, current page, buffer start page. -/
def smartChunkAux (document_name : List Char) (chunk_size chunk_overlap : Nat) :
    List (List Char) → List Chunk → List Char → Nat → Nat → List Chunk
  | [], chunks, current, _page, curPg =>
    if pyStrip current ≠ [] then chunks ++ [⟨pyStrip current, curPg, document_name⟩]
    else chunks
  | para :: rest, chunks, current, page, curPg =>
    let pg2 := match pageMatch para with | some n => n | none => page
    let para1 := match pageMatch para with | some _ => subPageMarkers para | none => para
    let para2 := pyStrip para1
    if para2 = [] then
      smartChunkAux document_name chunk_size chunk_overlap rest chunks current pg2 curPg
    else if current.length + para2.length + 1 ≤ chunk_size then
      if current ≠ [] then
        smartChunkAux document_name chunk_size chunk_overlap rest chunks
          (current ++ '\n' :: '\n' :: para2) pg2 curPg
      else
        smartChunkAux document_name chunk_size chunk_overlap rest chunks para2 pg2 pg2
    else
      let chunks2 :=
        if pyStrip current ≠ [] then chunks ++ [⟨pyStrip current, curPg, document_name⟩]
        else chunks
      if chunk_size < para2.length then
        smartChunkAux document_name chunk_size chunk_overlap rest
          (chunks2 ++ split_long_paragraph para2 pg2 document_name chunk_size chunk_overlap)
          [] pg2 curPg
      else
        let current2 :=
          if current ≠ [] ∧ 0 < chunk_overlap then
            get_overlap_text current chunk_overlap ++ '\n' :: '\n' :: para2
          else para2
        smartChunkAux document_name chunk_size chunk_overlap rest chunks2 current2 pg2 pg2

/-- Embedding of document_processor.smart_chunk_text. The page_map argument is
unused by the source algorithm and kept only for signature fidelity. -/
def smart_chunk_text (text : List Char) (page_map : List (Nat × List Char))
    (document_name : List Char) (chunk_size chunk_overlap : Nat) : List Chunk :=
  if pyStrip text = [] then []
  else smartChunkAux document_name chunk_size chunk_overlap (splitParas text) [] [] 1 1

/-- A chunk record instrumented with its origin: fromSplit is true exactly when
the chunk was emitted by the long-paragraph sentence splitter. -/
structure ChunkT where
  text : List Char
  page : Nat
  document : List Char
  fromSplit : Bool
deriving DecidableEq, Repr

def ChunkT.erase (c : ChunkT) : Chunk := ⟨c.text, c.page, c.document⟩

/-- Origin-instrumented copy of splitLongAux; identical control flow, every
emitted chunk is tagged fromSplit = true. -/
def splitLongAuxT (page : Nat) (document : List Char) (chunk_size overlap : Nat) :
    List (List Char) → List ChunkT → List Char → List ChunkT
  | [], chunks, current =>
    if pyStrip current ≠ [] then chunks ++ [⟨pyStrip current, page, document, true⟩]
    else chunks
  | sentence :: rest, chunks, current =>
    if current.length + sentence.length + 1 ≤ chunk_size then
      splitLongAuxT page document chunk_size overlap rest chunks
        (if current ≠ [] then current ++ ' ' :: sentence else sentence)
    else
      let chunks2 :=
        if pyStrip current ≠ [] then chunks ++ [⟨pyStrip current, page, document, true⟩]
        else chunks
      let current2 :=
        if current ≠ [] ∧ 0 < overlap then
          get_overlap_text current overlap ++ ' ' :: sentence
        else sentence
      splitLongAuxT page document chunk_size overlap rest chunks2 current2

def split_long_paragraphT (paragraph : List Char) (page : Nat) (document : List Char)
    (chunk_size overlap : Nat) : List ChunkT :=
  splitLongAuxT page document chunk_size overlap (splitSentences paragraph) [] []

/-- Origin-instrumented copy of smartChunkAux; identical control flow, chunks
flushed from the paragraph buffer are tagged fromSplit = false. -/
def smartChunkAuxT (document_name : List Char) (chunk_size chunk_overlap : Nat) :
    List (List Char) → List ChunkT → List Char → Nat → Nat → List ChunkT
  | [], chunks, current, _page, curPg =>
    if pyStrip current ≠ [] then
      chunks ++ [⟨pyStrip current, curPg, document_name, false⟩]
    else chunks
  | para :: rest, chunks, current, page, curPg =>
    let pg2 := match pageMatch para with | some n => n | none => page
    let para1 := match pageMatch para with | some _ => subPageMarkers para | none => para
    let para2 := pyStrip para1
    if para2 = [] then
      smartChunkAuxT document_name chunk_size chunk_overlap rest chunks current pg2 curPg
    else if current.length + para2.length + 1 ≤ chunk_size then
      if current ≠ [] then
        smartChunkAuxT document_name chunk_size chunk_overlap rest chunks
          (current ++ '\n' :: '\n' :: para2) pg2 curPg
      else
        smartChunkAuxT document_name chunk_size chunk_overlap rest chunks para2 pg2 pg2
    else
      let chunks2 :=
        if pyStrip current ≠ [] then
          chunks ++ [⟨pyStrip current, curPg, document_name, false⟩]
        else chunks
      if chunk_size < para2.length then
        smartChunkAuxT document_name chunk_size chunk_overlap rest
          (chunks2 ++ split_long_paragraphT para2 pg2 document_name chunk_size chunk_overlap)
          [] pg2 curPg
      else
        let current2 :=
          if current ≠ [] ∧ 0 < chunk_overlap then
            get_overlap_text current chunk_overlap ++ '\n' :: '\n' :: para2
          else para2
        smartChunkAuxT document_name chunk_size chunk_overlap rest chunks2 current2 pg2 pg2

/-- Origin-instrumented smart_chunk_text; erasing the tags recovers the plain
embedding (theorem smart_chunk_textT_erase). -/
def smart_chunk_textT (text : List Char) (page_map : List (Nat × List Char))
    (document_name : List Char) (chunk_size chunk_overlap : Nat) : List ChunkT :=
  if pyStrip text = [] then []
  else smartChunkAuxT document_name chunk_size chunk_overlap (splitParas text) [] [] 1 1

/-
Vector store model (vector_store.py). The chromadb collection is a list of
entries (id, opaque embedding, text, metadata); the document registry is an
association list with Python dict semantics (unique keys, insertion order).
-/

/-- One stored chromadb record: id, embedding (opaque), text and metadata. -/
structure Entry where
  id : List Char
  embedding : Nat
  text : List Char
  document : List Char
  page : Nat
  chunk_index : Nat
deriving DecidableEq, Repr

/-- A document registry record: chunk_count and the ordered chunk ids. -/
structure DocRecord where
  chunk_count : Nat
  chunk_ids : List (List Char)
deriving DecidableEq, Repr

/-- State of a VectorStore: the chromadb collection and the registry. -/
structure VSState where
  collection : List Entry
  documents : List (List Char × DocRecord)
deriving DecidableEq, Repr

/-- Python dict access on the registry: the value at the first matching key. -/
def dictGet (d : List (List Char × DocRecord)) (k : List Char) : Option DocRecord :=
  match d with
  | [] => none
  | p :: rest => if p.1 = k then some p.2 else dictGet rest k

/-- Python dict assignment on the registry: replace in place when the key is
present, append otherwise. -/
def dictSet (d : List (List Char × DocRecord)) (k : List Char) (v : DocRecord) :
    List (List Char × DocRecord) :=
  if (dictGet d k).isSome then
    d.map (fun p => if p.1 = k then (k, v) else p)
  else d ++ [(k, v)]

/-- Python dict deletion on the registry. -/
def dictDel (d : List (List Char × DocRecord)) (k : List Char) :
    List (List Char × DocRecord) :=
  d.filter (fun p => p.1 ≠ k)

/-- Chunk id assigned by VectorStore.add_document: doc_, then the document
name, an underscore and the decimal chunk index. -/
def chunkId (document_name : List Char) (i : Nat) : List Char :=
  ("doc_").toList ++ document_name ++ '_' :: Nat.toDigits 10 i

def chunkIds (document_name : List Char) (n : Nat) : List (List Char) :=
  (List.range n).map (chunkId document_name)

/-- Outcome of one embedding-backend call for a text, as seen by
VectorStore._get_embedding: an opaque vector or an exception message. -/
abbrev EmbedOracle := List Char → Except (List Char) Nat

/-- Embedding of VectorStore._get_embeddings_batch: one sequential call per
text, aborting on the first failure. -/
def get_embeddings_batch (oracle : EmbedOracle) : List (List Char) → Except (List Char) (List Nat)
  | [] => .ok []
  | t :: ts =>
    match oracle t with
    | .error e => .error e
    | .ok v =>
      match get_embeddings_batch oracle ts with
      | .error e => .error e
      | .ok vs => .ok (v :: vs)

/-- Embedding of VectorStore.remove_document. -/
def remove_document (st : VSState) (document_name : List Char) : VSState × Bool :=
  match dictGet st.documents document_name with
  | none => (st, false)
  | some record =>
    ({ collection := st.collection.filter
         (fun e : Entry => decide (e.id ∉ record.chunk_ids)),
       documents := dictDel st.documents document_name }, true)

/-- Entries appended by collection.add in add_document: the i-th chunk with the
i-th embedding under id chunkId(document_name, i); the document and page
metadata come from the chunk record itself. -/
def mkEntries (document_name : List Char) : Nat → List Chunk → List Nat → List Entry
  | _, [], _ => []
  | _, _ :: _, [] => []
  | i, c :: cs, v :: vs =>
    ⟨chunkId document_name i, v, c.text, c.document, c.page, i⟩
      :: mkEntries document_name (i + 1) cs vs

/-- Embedding of VectorStore.add_document. Returns the state at exit together
with the outcome (ok chunk-count, or the embedding exception that escaped);
the state is returned on failure too so post-failure contents can be stated.
A registered version of the same name is removed before embedding, exactly as
in the source. -/
def add_document (oracle : EmbedOracle) (st : VSState) (document_name : List Char)
    (chunks : List Chunk) : VSState × Except (List Char) Nat :=
  if chunks = [] then (st, .ok 0)
  else
    let st1 := if (dictGet st.documents document_name).isSome then
        (remove_document st document_name).1 else st
    match get_embeddings_batch oracle (chunks.map Chunk.text) with
    | .error e => (st1, .error e)
    | .ok embs =>
      ({ collection := st1.collection ++ mkEntries document_name 0 chunks embs,
         documents := dictSet st1.documents document_name
           ⟨chunks.length, chunkIds document_name chunks.length⟩ },
       .ok chunks.length)

/-- Modelled from the spec: the external vector index backend used by
VectorStore.query (chromadb collection.query, section 6 of the spec). Given a
distance for every stored entry relative to the query embedding, it returns
up to n_results entries matching the optional document filter, in ascending
order of distance. -/
def chromaQuery (dist : Entry → Int) (collection : List Entry)
    (filterDoc : Option (List Char)) (n_results : Nat) : List Entry :=
  let matching := match filterDoc with
    | some d => collection.filter (fun e : Entry => decide (e.document = d))
    | none => collection
  (matching.insertionSort (fun a b => dist a ≤ dist b)).take n_results

/-- One formatted result of VectorStore.query. -/
structure QueryResult where
  content : List Char
  document : List Char
  page : Nat
  distance : Int
deriving DecidableEq, Repr

/-- Embedding of VectorStore.query: embed the question (oracle outcome
propagates as the exception), cap n_results at the collection size (1 when
the collection is empty), delegate to the backend, format the results. -/
def vs_query (oracle : EmbedOracle) (dist : Entry → Int) (st : VSState)
    (question : List Char) (n_results : Nat) (document_filter : Option (List Char)) :
    Except (List Char) (List QueryResult) :=
  match oracle question with
  | .error e => .error e
  | .ok _ =>
    let total_docs := st.collection.length
    let raw := chromaQuery dist st.collection document_filter
      (if 0 < total_docs then min n_results total_docs else 1)
    .ok (raw.map (fun e => ⟨e.text, e.document, e.page, dist e⟩))

/-- Embedding of VectorStore.clear. -/
def vs_clear (st : VSState) : VSState :=
  { collection := [], documents := [] }

/-
RAG engine model (rag_engine.py). Conversation history, session statistics
and the ask pipeline; the generation backend appears as an oracle value.
-/

/-- One conversation exchange; the timestamp is an opaque clock value. -/
structure Exchange where
  question : List Char
  answer : List Char
  timestamp : Nat
deriving DecidableEq, Repr

/-- Session statistics counters; session_start is an opaque clock value. -/
structure SessionStats where
  documents_processed : Nat
  questions_asked : Nat
  chunks_retrieved : Nat
  session_start : Nat
deriving DecidableEq, Repr

/-- State of a RAGEngine: vector store, conversation history, statistics. -/
structure EngineState where
  vs : VSState
  history : List Exchange
  stats : SessionStats
deriving DecidableEq, Repr

/-- Relevant configuration fields of config.Config. -/
structure Config where
  top_k_results : Nat
  max_conversation_history : Nat
  include_conversation_context : Bool
deriving DecidableEq, Repr

/-- Python tail slice with a negative index: s[-n:], which is the whole list
when n = 0. -/
def pyTail {α : Type} (l : List α) (n : Nat) : List α :=
  if n = 0 then l else l.drop (l.length - n)

/-- Embedding of RAGEngine._add_to_history: append the exchange, then keep
only the most recent 2 times max_conversation_history entries. -/
def add_to_history (maxHist : Nat) (now : Nat) (history : List Exchange)
    (question answer : List Char) : List Exchange :=
  let h := history ++ [⟨question, answer, now⟩]
  if 2 * maxHist < h.length then pyTail h (2 * maxHist) else h

/-- Rendering of the conversation block from the selected recent exchanges,
as the loop body of RAGEngine._build_conversation_context: header line, then
one User and one Assistant line per exchange, answers truncated to 200
characters. -/
def renderConv (recent : List Exchange) : List Char :=
  ("PREVIOUS CONVERSATION:").toList ++
    (recent.map (fun e =>
      ("\nUser: ").toList ++ e.question ++ ("\nAssistant: ").toList ++
        (if 200 < e.answer.length then e.answer.take 200 ++ ("...").toList
         else e.answer))).flatten

/-- Embedding of RAGEngine._build_conversation_context. -/
def build_conversation_context (maxHist : Nat) (history : List Exchange) : List Char :=
  if history = [] then []
  else renderConv (pyTail history maxHist)

/-- Outcome of one generation-backend call, as seen inside
RAGEngine._generate_answer. -/
inductive GenOutcome
  | response (status : Nat) (body : List Char)
  | connectionFailure
  | timeoutExpired
  | otherFailure (msg : List Char)
deriving DecidableEq, Repr

/-- Exception escaping RAGEngine._generate_answer, carrying str(e). -/
inductive GenExc
  | connectionExc (msg : List Char)
  | runtimeExc (msg : List Char)
deriving DecidableEq, Repr

def GenExc.message : GenExc → List Char
  | .connectionExc m => m
  | .runtimeExc m => m

def timeoutMessage : List Char :=
  ("⏱️ Response timed out. Try a shorter question.").toList

/-- Embedding of RAGEngine._generate_answer: a 200 status yields the stripped
response body, a non-200 status yields an error string as a normal answer, a
requests timeout is swallowed into the fixed timed-out answer, a connection
failure or any other failure re-raises. -/
def generate_answer (outcome : GenOutcome) : Except GenExc (List Char) :=
  match outcome with
  | .response status body =>
    if status ≠ 200 then .ok (("Error from Ollama: ").toList ++ body)
    else .ok (pyStrip body)
  | .connectionFailure => .error (.connectionExc (("Cannot connect to Ollama").toList))
  | .timeoutExpired => .ok timeoutMessage
  | .otherFailure msg => .error (.runtimeExc (("LLM error: ").toList ++ msg))

def startsWithL : List Char → List Char → Bool
  | _, [] => true
  | [], _ :: _ => false
  | c :: s, p :: ps => c = p && startsWithL s ps

/-- Substring test, as the Python in operator on strings. -/
def containsSub (pat : List Char) : List Char → Bool
  | [] => pat.isEmpty
  | c :: rest => startsWithL (c :: rest) pat || containsSub pat rest

/-- One source card of an ask_question response. -/
structure Source where
  document : List Char
  page : Nat
  content : List Char
  relevance : Int
deriving DecidableEq, Repr

/-- The response object of RAGEngine.ask_question. -/
structure AskResult where
  answer : List Char
  sources : List Source
  documents_searched : List (List Char)
  error : Option (List Char)
deriving DecidableEq, Repr

/-- Result of one ask_question call: the response, the engine state at exit,
and how many embedding and generation backend calls were made. -/
structure AskOut where
  result : AskResult
  state : EngineState
  embed_calls : Nat
  gen_calls : Nat
deriving DecidableEq, Repr

/-- Embedding of the except-branch of RAGEngine.ask_question: a message
containing the word connection maps to the fixed cannot-connect answer, any
other exception maps to a generic failure answer. -/
def ask_error_result (error_msg : List Char) : AskResult :=
  if containsSub (("connection").toList) (error_msg.map Char.toLower) then
    { answer := ("❌ Cannot connect to Ollama. Please run: `ollama serve`").toList,
      sources := [], documents_searched := [],
      error := some (("connection_error").toList) }
  else
    { answer := ("❌ An error occurred: ").toList ++ error_msg,
      sources := [], documents_searched := [],
      error := some (("unknown_error").toList) }

/-- Source cards built on success: content truncated to 250 characters with
an ellipsis, relevance derived from the distance. The source computes
relevance as round((1 - distance) * 100, 1) on floats; the claims never
inspect relevance, so the rounding is not modeled. -/
def mkSources (relevant_chunks : List QueryResult) : List Source :=
  relevant_chunks.map (fun c =>
    { document := c.document, page := c.page,
      content := if 250 < c.content.length
        then c.content.take 250 ++ ("...").toList else c.content,
      relevance := (1 - c.distance) * 100 })

/-- Embedding of RAGEngine.ask_question. External effects are supplied as
oracles: the embedding outcome, a distance per stored entry, the generation
outcome and the current time. Statistics are updated after a successful
retrieval and before the no-results check, exactly as in the source; a
generation timeout produces a normal answer (see generate_answer), so the
history append still runs on that path. -/
def ask_question (cfg : Config) (oracle : EmbedOracle) (dist : Entry → Int)
    (gen : GenOutcome) (now : Nat) (st : EngineState) (question : List Char)
    (document_filter : Option (List Char)) (use_conversation_memory : Bool) :
    AskOut :=
  if st.vs.documents.length = 0 then
    { result := { answer := ("📚 Please upload a document first before asking questions.").toList,
                  sources := [], documents_searched := [], error := none },
      state := st, embed_calls := 0, gen_calls := 0 }
  else
    match vs_query oracle dist st.vs question cfg.top_k_results document_filter with
    | .error e =>
      { result := ask_error_result e, state := st, embed_calls := 1, gen_calls := 0 }
    | .ok relevant_chunks =>
      let st1 : EngineState :=
        { st with stats :=
          { st.stats with
            questions_asked := st.stats.questions_asked + 1,
            chunks_retrieved := st.stats.chunks_retrieved + relevant_chunks.length } }
      if relevant_chunks = [] then
        { result := { answer := ("I couldn't find any relevant information in the documents. Try rephrasing or uploading more content.").toList,
                      sources := [],
                      documents_searched := st.vs.documents.map Prod.fst,
                      error := none },
          state := st1, embed_calls := 1, gen_calls := 0 }
      else
        match generate_answer gen with
        | .error exc =>
          { result := ask_error_result exc.message, state := st1,
            embed_calls := 1, gen_calls := 1 }
        | .ok answer =>
          let newHistory :=
            add_to_history cfg.max_conversation_history now st1.history question answer
          let st2 : EngineState := { st1 with history := newHistory }
          let sources := mkSources relevant_chunks
          { result := { answer := answer, sources := sources,
                        documents_searched := (sources.map Source.document).dedup,
                        error := none },
            state := st2, embed_calls := 1, gen_calls := 1 }

/-- Embedding of RAGEngine.clear_conversation. -/
def clear_conversation (st : EngineState) : EngineState :=
  { st with history := [] }

/-- Embedding of RAGEngine.clear_all: clear the store, the conversation and
reset the statistics with a fresh session start. -/
def clear_all (now : Nat) (st : EngineState) : EngineState :=
  { vs := vs_clear st.vs, history := [],
    stats := { documents_processed := 0, questions_asked := 0,
               chunks_retrieved := 0, session_start := now } }

/-- Embedding of RAGEngine.remove_document, which delegates to the store. -/
def engine_remove_document (st : EngineState) (document_name : List Char) :
    EngineState × Bool :=
  let r := remove_document st.vs document_name
  ({ st with vs := r.1 }, r.2)

/-
Concrete states and oracles used by counterexamples and witnesses.
-/

def exEntryA : Entry :=
  ⟨chunkId (("a").toList) 0, 0, ("hello").toList, ("a").toList, 1, 0⟩

def exEntryB : Entry :=
  ⟨chunkId (("b").toList) 0, 0, ("world").toList, ("b").toList, 1, 0⟩

/-- A store holding one document a with one chunk. -/
def exVS : VSState :=
  ⟨[exEntryA], [(("a").toList, ⟨1, [chunkId (("a").toList) 0]⟩)]⟩

/-- A store holding two documents a and b with one chunk each. -/
def exVS2 : VSState :=
  ⟨[exEntryA, exEntryB],
   [(("a").toList, ⟨1, [chunkId (("a").toList) 0]⟩),
    (("b").toList, ⟨1, [chunkId (("b").toList) 0]⟩)]⟩

def exStats : SessionStats := ⟨0, 0, 0, 0⟩

def exEngine : EngineState := ⟨exVS, [], exStats⟩

def exEngineEmpty : EngineState := ⟨⟨[], []⟩, [], exStats⟩

def exCfg : Config := ⟨5, 5, true⟩

def okOracle : EmbedOracle := fun _ => .ok 0

def failOracle : EmbedOracle := fun _ => .error (("boom").toList)

def exDist : Entry → Int := fun _ => 0

def exChunkNew : Chunk := ⟨("new").toList, 2, ("a").toList⟩

/-- Replay of a sequence of exchanges through _add_to_history, starting from
an empty history. -/
def replayHistory (m : Nat) (L : List Exchange) : List Exchange :=
  L.foldl (fun acc e => add_to_history m e.timestamp acc e.question e.answer) []

def exL : List Exchange :=
  [⟨("q1").toList, ("a1").toList, 1⟩,
   ⟨("q2").toList, ("a2").toList, 2⟩,
   ⟨("q3").toList, ("a3").toList, 3⟩]

theorem splitLongAuxT_erase (page : Nat) (document : List Char) (cs ov : Nat)
    (ss : List (List Char)) :
    ∀ (chunksT : List ChunkT) (current : List Char),
      (splitLongAuxT page document cs ov ss chunksT current).map ChunkT.erase
        = splitLongAux page document cs ov ss (chunksT.map ChunkT.erase) current := by
  induction ss with
  | nil =>
    intro chunksT current
    simp only [splitLongAuxT, splitLongAux]
    split
    · simp [ChunkT.erase]
    · rfl
  | cons s rest ih =>
    intro chunksT current
    simp only [splitLongAuxT, splitLongAux]
    split_ifs <;> rw [ih] <;> simp [ChunkT.erase]

theorem split_long_paragraphT_erase (paragraph : List Char) (page : Nat)
    (document : List Char) (cs ov : Nat) :
    (split_long_paragraphT paragraph page document cs ov).map ChunkT.erase
      = split_long_paragraph paragraph page document cs ov := by
  unfold split_long_paragraphT split_long_paragraph
  simpa using splitLongAuxT_erase page document cs ov (splitSentences paragraph) [] []

theorem smartChunkAuxT_erase (document_name : List Char) (cs ov : Nat)
    (paras : List (List Char)) :
    ∀ (chunksT : List ChunkT) (current : List Char) (page curPg : Nat),
      (smartChunkAuxT document_name cs ov paras chunksT current page curPg).map ChunkT.erase
        = smartChunkAux document_name cs ov paras (chunksT.map ChunkT.erase) current page curPg := by
  induction paras with
  | nil =>
    intro chunksT current page curPg
    simp only [smartChunkAuxT, smartChunkAux]
    split
    · simp [ChunkT.erase]
    · rfl
  | cons para rest ih =>
    intro chunksT current page curPg
    simp only [smartChunkAuxT, smartChunkAux]
    split_ifs <;> rw [ih] <;>
      simp [ChunkT.erase, split_long_paragraphT_erase]

theorem smart_chunk_textT_erase (text : List Char) (page_map : List (Nat × List Char))
    (document_name : List Char) (cs ov : Nat) :
    (smart_chunk_textT text page_map document_name cs ov).map ChunkT.erase
      = smart_chunk_text text page_map document_name cs ov := by
  unfold smart_chunk_textT smart_chunk_text
  split
  · rfl
  · simpa using smartChunkAuxT_erase document_name cs ov (splitParas text) [] [] 1 1

theorem pyStrip_len_le (s : List Char) : (pyStrip s).length ≤ s.length := by
  unfold pyStrip
  have h1 := dropWhile_len_le pyIsSpace s
  have h2 := dropWhile_len_le pyIsSpace (s.dropWhile pyIsSpace).reverse
  simp only [List.length_reverse] at h1 h2 ⊢
  omega

theorem get_overlap_len_le (t : List Char) (n : Nat) (hn : 0 < n) :
    (get_overlap_text t n).length ≤ n := by
  unfold get_overlap_text
  split
  · next h => exact h
  · next h =>
    have hn0 : ¬(n = 0) := by omega
    simp only [hn0, if_false]
    have hlen : (t.drop (t.length - n)).length = n := by
      simp only [List.length_drop]
      omega
    split
    · next i hi =>
      split
      · simp only [List.length_drop]
        omega
      · exact le_of_eq hlen
    · exact le_of_eq hlen

theorem splitLongAuxT_tag (page : Nat) (document : List Char) (cs ov : Nat)
    (ss : List (List Char)) :
    ∀ (chunksT : List ChunkT) (current : List Char),
      (∀ c ∈ chunksT, c.fromSplit = true) →
      ∀ c ∈ splitLongAuxT page document cs ov ss chunksT current, c.fromSplit = true := by
  induction ss with
  | nil =>
    intro chunksT current hch c hc
    simp only [splitLongAuxT] at hc
    split at hc
    · rcases List.mem_append.1 hc with h | h
      · exact hch c h
      · simp only [List.mem_singleton] at h
        subst h
        rfl
    · exact hch c hc
  | cons s rest ih =>
    intro chunksT current hch c hc
    simp only [splitLongAuxT] at hc
    have hflush : ∀ d ∈ (if pyStrip current ≠ [] then
        chunksT ++ [⟨pyStrip current, page, document, true⟩] else chunksT),
        d.fromSplit = true := by
      intro d hd
      by_cases hs : pyStrip current ≠ []
      · rw [if_pos hs] at hd
        rcases List.mem_append.1 hd with h7 | h7
        · exact hch d h7
        · simp only [List.mem_singleton] at h7
          subst h7
          rfl
      · rw [if_neg hs] at hd
        exact hch d hd
    by_cases h1 : current.length + s.length + 1 ≤ cs
    · rw [if_pos h1] at hc
      exact ih chunksT _ hch c hc
    · rw [if_neg h1] at hc
      exact ih _ _ hflush c hc

theorem split_long_paragraphT_tag (paragraph : List Char) (page : Nat)
    (document : List Char) (cs ov : Nat) :
    ∀ c ∈ split_long_paragraphT paragraph page document cs ov, c.fromSplit = true := by
  unfold split_long_paragraphT
  exact splitLongAuxT_tag page document cs ov (splitSentences paragraph) [] []
    (by intro c hc; exact absurd hc (List.not_mem_nil c))

theorem smartChunkAuxT_bound (document_name : List Char) (S O : Nat)
    (paras : List (List Char)) :
    ∀ (chunksT : List ChunkT) (current : List Char) (page curPg : Nat),
      (∀ c ∈ chunksT, c.fromSplit = false → c.text.length ≤ S + O + 2) →
      current.length ≤ S + O + 2 →
      ∀ c ∈ smartChunkAuxT document_name S O paras chunksT current page curPg,
        c.fromSplit = false → c.text.length ≤ S + O + 2 := by
  induction paras with
  | nil =>
    intro chunksT current page curPg hch hcur c hc
    simp only [smartChunkAuxT] at hc
    split at hc
    · rcases List.mem_append.1 hc with h | h
      · exact hch c h
      · simp only [List.mem_singleton] at h
        subst h
        intro _
        exact le_trans (pyStrip_len_le current) hcur
    · exact hch c hc
  | cons para rest ih =>
    intro chunksT current page curPg hch hcur c hc
    simp only [smartChunkAuxT] at hc
    generalize hpg : (match pageMatch para with | some n => n | none => page) = pg2 at hc
    generalize hpa :
      pyStrip (match pageMatch para with | some _ => subPageMarkers para | none => para)
        = para2 at hc
    have hflush : ∀ d ∈ (if pyStrip current ≠ [] then
        chunksT ++ [⟨pyStrip current, curPg, document_name, false⟩] else chunksT),
        d.fromSplit = false → d.text.length ≤ S + O + 2 := by
      intro d hd hdf
      by_cases hs : pyStrip current ≠ []
      · rw [if_pos hs] at hd
        rcases List.mem_append.1 hd with h7 | h7
        · exact hch d h7 hdf
        · simp only [List.mem_singleton] at h7
          subst h7
          exact le_trans (pyStrip_len_le current) hcur
      · rw [if_neg hs] at hd
        exact hch d hd hdf
    by_cases h1 : para2 = []
    · rw [if_pos h1] at hc
      exact ih chunksT current _ _ hch hcur c hc
    · rw [if_neg h1] at hc
      by_cases h2 : current.length + para2.length + 1 ≤ S
      · rw [if_pos h2] at hc
        by_cases h3 : current ≠ []
        · rw [if_pos h3] at hc
          refine ih chunksT _ _ _ hch ?_ c hc
          simp only [List.length_append, List.length_cons]
          omega
        · rw [if_neg h3] at hc
          have h0 : current = [] := by
            by_contra hne
            exact h3 hne
          refine ih chunksT _ _ _ hch ?_ c hc
          subst h0
          simp only [List.length_nil] at h2
          omega
      · rw [if_neg h2] at hc
        by_cases h4 : S < para2.length
        · rw [if_pos h4] at hc
          refine ih _ [] _ _ ?_ (by simp) c hc
          intro d hd hdf
          rcases List.mem_append.1 hd with h | h
          · exact hflush d h hdf
          · have := split_long_paragraphT_tag _ _ _ _ _ d h
            rw [hdf] at this
            exact absurd this (by simp)
        · rw [if_neg h4] at hc
          by_cases h5 : current ≠ [] ∧ 0 < O
          · rw [if_pos h5] at hc
            refine ih _ _ _ _ hflush ?_ c hc
            simp only [List.length_append, List.length_cons]
            have ho := get_overlap_len_le current O h5.2
            omega
          · rw [if_neg h5] at hc
            refine ih _ _ _ _ hflush ?_ c hc
            omega

/-
Registry dictionary lemmas.
-/

theorem dictGet_del_self (d : List (List Char × DocRecord)) (k : List Char) :
    dictGet (dictDel d k) k = none := by
  induction d with
  | nil => rfl
  | cons p rest ih =>
    by_cases h : p.1 = k
    · simpa [dictDel, List.filter_cons, h] using ih
    · simpa [dictDel, dictGet, List.filter_cons, h] using ih

theorem dictGet_del_ne (d : List (List Char × DocRecord)) (k k2 : List Char)
    (h : k2 ≠ k) : dictGet (dictDel d k) k2 = dictGet d k2 := by
  induction d with
  | nil => rfl
  | cons p rest ih =>
    by_cases hp : p.1 = k
    · have hkk : ¬(k = k2) := fun hh => h hh.symm
      simpa [dictDel, dictGet, List.filter_cons, hp, hkk] using ih
    · by_cases hp2 : p.1 = k2
      · simp [dictDel, dictGet, List.filter_cons, hp, hp2, h]
      · simpa [dictDel, dictGet, List.filter_cons, hp, hp2] using ih

theorem dictDel_eq_self (d : List (List Char × DocRecord)) (k : List Char)
    (h : dictGet d k = none) : dictDel d k = d := by
  induction d with
  | nil => rfl
  | cons p rest ih =>
    by_cases hp : p.1 = k
    · simp [dictGet, hp] at h
    · simp only [dictGet, hp, if_false] at h
      simp only [dictDel, List.filter_cons] at ih ⊢
      rw [if_pos (by simp [hp])]
      rw [ih h]

theorem dictGet_append_none (d d2 : List (List Char × DocRecord)) (k : List Char)
    (h : dictGet d k = none) : dictGet (d ++ d2) k = dictGet d2 k := by
  induction d with
  | nil => rfl
  | cons p rest ih =>
    by_cases hp : p.1 = k
    · simp [dictGet, hp] at h
    · simp only [dictGet, hp, if_false] at h
      simpa [dictGet, hp] using ih h

theorem dictDel_filter_self (d : List (List Char × DocRecord)) (k : List Char) :
    (dictDel d k).filter (fun p => decide (p.1 = k)) = [] := by
  induction d with
  | nil => rfl
  | cons p rest ih =>
    by_cases hp : p.1 = k
    · simp only [dictDel, List.filter_cons] at ih ⊢
      simp [hp, ih]
    · simp only [dictDel, List.filter_cons] at ih ⊢
      simp [hp, ih]

/-
Chunk id and entry lemmas.
-/

theorem mkEntries_id (document_name : List Char) :
    ∀ (chunks : List Chunk) (embs : List Nat) (i : Nat) (en : Entry),
      en ∈ mkEntries document_name i chunks embs →
      ∃ j, j < chunks.length ∧ en.id = chunkId document_name (i + j) := by
  intro chunks
  induction chunks with
  | nil =>
    intro embs i en h
    cases embs <;> exact absurd h (List.not_mem_nil en)
  | cons c cs ih =>
    intro embs i en h
    match embs with
    | [] => exact absurd h (List.not_mem_nil en)
    | v :: vs =>
      simp only [mkEntries, List.mem_cons] at h
      rcases h with h | h
      · refine ⟨0, Nat.succ_pos _, ?_⟩
        rw [h]
        show chunkId document_name i = chunkId document_name (i + 0)
        congr 1
      · obtain ⟨j, hj, hid⟩ := ih vs (i + 1) en h
        refine ⟨j + 1, by simpa using Nat.succ_lt_succ hj, ?_⟩
        rw [hid]
        congr 1
        omega

theorem chunkId_mem (document_name : List Char) (j n : Nat) (h : j < n) :
    chunkId document_name j ∈ chunkIds document_name n := by
  unfold chunkIds
  exact List.mem_map.2 ⟨j, List.mem_range.2 h, rfl⟩

/-
Claim C1.
-/

/-- C1 (counterexample): with chunk_size 10 and overlap 5, on a text with two
paragraphs of 3 and 6 characters the sentence splitter never runs (the one
produced chunk is tagged fromSplit = false), yet that chunk has 11 > 10
characters: the greedy fit check counts the paragraph separator as one
character while the join inserts two. -/
theorem C1_counterexample :
    smart_chunk_text (("aaa\n\nbbbbbb").toList) [] (("doc").toList) 10 5
        = [⟨("aaa\n\nbbbbbb").toList, 1, ("doc").toList⟩] ∧
    smart_chunk_textT (("aaa\n\nbbbbbb").toList) [] (("doc").toList) 10 5
        = [⟨("aaa\n\nbbbbbb").toList, 1, ("doc").toList, false⟩] ∧
    (("aaa\n\nbbbbbb").toList).length = 11 := by
  refine ⟨by decide, by decide, by decide⟩

/-- C1 (amended): for any text, page map, document name, chunk size S and
overlap O < S, every chunk produced by smart_chunk_text that does not come
from sentence-splitting an oversized paragraph has text length at most
S + O + 2: the greedy fit check undercounts the two-character paragraph
separator by one, and a buffer seeded with overlap text carries up to O + 2
extra characters. The first conjunct grounds the origin tags: erasing them
recovers smart_chunk_text. -/
theorem C1_amended_bound (text : List Char) (page_map : List (Nat × List Char))
    (document_name : List Char) (S O : Nat) (hO : O < S) :
    (smart_chunk_textT text page_map document_name S O).map ChunkT.erase
        = smart_chunk_text text page_map document_name S O ∧
    ∀ c ∈ smart_chunk_textT text page_map document_name S O,
      c.fromSplit = false → c.text.length ≤ S + O + 2 := by
  refine ⟨smart_chunk_textT_erase text page_map document_name S O, ?_⟩
  intro c hc
  unfold smart_chunk_textT at hc
  split at hc
  · exact absurd hc (List.not_mem_nil c)
  · exact smartChunkAuxT_bound document_name S O (splitParas text) [] [] 1 1
      (fun d hd => absurd hd (List.not_mem_nil d)) (by simp) c hc

/-- Witness for C1_amended_bound at the counterexample input. -/
theorem C1_amended_bound_witness :
    (5 : Nat) < 10 ∧
    ((smart_chunk_textT (("aaa\n\nbbbbbb").toList) [] (("doc").toList) 10 5).map ChunkT.erase
        = smart_chunk_text (("aaa\n\nbbbbbb").toList) [] (("doc").toList) 10 5 ∧
      ∀ c ∈ smart_chunk_textT (("aaa\n\nbbbbbb").toList) [] (("doc").toList) 10 5,
        c.fromSplit = false → c.text.length ≤ 10 + 5 + 2) :=
  ⟨by decide,
   C1_amended_bound (("aaa\n\nbbbbbb").toList) [] (("doc").toList) 10 5 (by decide)⟩

/-
Claim C2.
-/

/-- C2 (counterexample): a timed-out generation call does append an entry to
the conversation history: asking against a one-document store with the
generation backend timing out leaves a history of length one holding the
fixed timed-out answer, while the history before the call was empty. -/
theorem C2_counterexample :
    exEngine.history = [] ∧
    (ask_question exCfg okOracle exDist GenOutcome.timeoutExpired 7 exEngine
        (("q").toList) none true).state.history
      = [⟨("q").toList, timeoutMessage, 7⟩] :=
  ⟨rfl, by decide⟩

/-- C2 (amended): when the generation backend call times out, ask_question
returns the fixed timed-out answer with error = null and performs exactly
one generation call (no retry); the exchange IS appended to the conversation
history as a complete entry whose answer is the fixed timed-out message.
The original claim that the history is unchanged fails on the code: the
timeout is swallowed inside _generate_answer, so the normal success path,
including the history append, runs. -/
theorem C2_amended_timeout (cfg : Config) (oracle : EmbedOracle) (dist : Entry → Int)
    (now : Nat) (st : EngineState) (question : List Char)
    (document_filter : Option (List Char)) (mem : Bool) (rc : List QueryResult)
    (hne : ¬st.vs.documents.length = 0)
    (hq : vs_query oracle dist st.vs question cfg.top_k_results document_filter = .ok rc)
    (hrc : rc ≠ []) :
    (ask_question cfg oracle dist .timeoutExpired now st question
        document_filter mem).result.answer = timeoutMessage ∧
    (ask_question cfg oracle dist .timeoutExpired now st question
        document_filter mem).result.error = none ∧
    (ask_question cfg oracle dist .timeoutExpired now st question
        document_filter mem).gen_calls = 1 ∧
    (ask_question cfg oracle dist .timeoutExpired now st question
        document_filter mem).state.history
      = add_to_history cfg.max_conversation_history now st.history
          question timeoutMessage := by
  unfold ask_question
  rw [if_neg hne, hq]
  dsimp only
  rw [if_neg hrc]
  exact ⟨rfl, rfl, rfl, rfl⟩

/-- Witness for C2_amended_timeout on a one-document store. -/
theorem C2_amended_timeout_witness :
    (¬exEngine.vs.documents.length = 0) ∧
    vs_query okOracle exDist exEngine.vs (("q").toList) exCfg.top_k_results none
        = .ok [⟨("hello").toList, ("a").toList, 1, 0⟩] ∧
    ([(⟨("hello").toList, ("a").toList, 1, 0⟩ : QueryResult)] ≠ []) ∧
    ((ask_question exCfg okOracle exDist .timeoutExpired 7 exEngine (("q").toList)
        none true).result.answer = timeoutMessage ∧
     (ask_question exCfg okOracle exDist .timeoutExpired 7 exEngine (("q").toList)
        none true).result.error = none ∧
     (ask_question exCfg okOracle exDist .timeoutExpired 7 exEngine (("q").toList)
        none true).gen_calls = 1 ∧
     (ask_question exCfg okOracle exDist .timeoutExpired 7 exEngine (("q").toList)
        none true).state.history
       = add_to_history exCfg.max_conversation_history 7 exEngine.history
           (("q").toList) timeoutMessage) :=
  ⟨by decide, by rfl, by decide,
   C2_amended_timeout exCfg okOracle exDist 7 exEngine (("q").toList) none true
     [⟨("hello").toList, ("a").toList, 1, 0⟩] (by decide) (by rfl) (by decide)⟩

/-
Claim C3.
-/

/-- C3 (counterexample): with document a registered, an embedding failure
during a re-upload of a does not leave the previously registered version in
place: afterwards the registry no longer holds a and its old chunk is gone
from the collection. -/
theorem C3_counterexample :
    dictGet exVS.documents (("a").toList) = some ⟨1, [chunkId (("a").toList) 0]⟩ ∧
    (add_document failOracle exVS (("a").toList) [exChunkNew]).2
        = .error (("boom").toList) ∧
    dictGet (add_document failOracle exVS (("a").toList) [exChunkNew]).1.documents
        (("a").toList) = none ∧
    (add_document failOracle exVS (("a").toList) [exChunkNew]).1.collection = [] :=
  ⟨rfl, rfl, rfl, rfl⟩

/-- C3 (amended): when add_document fails during embedding, the failure
propagates, no new chunks or embeddings are persisted, no registry entry for
the document exists afterwards, and registry entries of other documents are
untouched; when the name was not previously registered the state is exactly
the pre-call state. However, a previously registered version of the same
name has already been removed before the embedding step (its chunks deleted,
its registry entry dropped), so the pre-call state is not restored:
remove-then-add is not transactional. -/
theorem C3_amended_failure (oracle : EmbedOracle) (st : VSState)
    (document_name : List Char) (chunks : List Chunk) (e : List Char)
    (hc : chunks ≠ [])
    (he : get_embeddings_batch oracle (chunks.map Chunk.text) = .error e) :
    (add_document oracle st document_name chunks).2 = .error e ∧
    dictGet (add_document oracle st document_name chunks).1.documents document_name
        = none ∧
    (match dictGet st.documents document_name with
      | some r => (add_document oracle st document_name chunks).1.collection
          = st.collection.filter (fun en : Entry => decide (en.id ∉ r.chunk_ids))
      | none => (add_document oracle st document_name chunks).1 = st) ∧
    (∀ d, d ≠ document_name →
      dictGet (add_document oracle st document_name chunks).1.documents d
        = dictGet st.documents d) := by
  unfold add_document
  rw [if_neg hc, he]
  cases hreg : dictGet st.documents document_name with
  | none =>
    refine ⟨rfl, ?_, ?_, ?_⟩
    · simp only [hreg, Option.isSome_none, Bool.false_eq_true, if_false]
    · simp only [hreg, Option.isSome_none, Bool.false_eq_true, if_false]
    · intro d hd
      simp only [hreg, Option.isSome_none, Bool.false_eq_true, if_false]
  | some r =>
    unfold remove_document
    refine ⟨rfl, ?_, ?_, ?_⟩
    · simp only [hreg, Option.isSome_some, if_true]
      exact dictGet_del_self st.documents document_name
    · simp only [hreg, Option.isSome_some, if_true]
    · intro d hd
      simp only [hreg, Option.isSome_some, if_true]
      exact dictGet_del_ne st.documents document_name d hd

/-- Witness for C3_amended_failure at a state with a registered. -/
theorem C3_amended_failure_witness :
    ([exChunkNew] ≠ ([] : List Chunk)) ∧
    get_embeddings_batch failOracle ([exChunkNew].map Chunk.text)
        = .error (("boom").toList) ∧
    ((add_document failOracle exVS (("a").toList) [exChunkNew]).2
        = .error (("boom").toList) ∧
     dictGet (add_document failOracle exVS (("a").toList) [exChunkNew]).1.documents
        (("a").toList) = none ∧
     (match dictGet exVS.documents (("a").toList) with
       | some r => (add_document failOracle exVS (("a").toList) [exChunkNew]).1.collection
           = exVS.collection.filter (fun en : Entry => decide (en.id ∉ r.chunk_ids))
       | none => (add_document failOracle exVS (("a").toList) [exChunkNew]).1 = exVS) ∧
     (∀ d, d ≠ ("a").toList →
       dictGet (add_document failOracle exVS (("a").toList) [exChunkNew]).1.documents d
         = dictGet exVS.documents d)) :=
  ⟨by decide, rfl,
   C3_amended_failure failOracle exVS (("a").toList) [exChunkNew] (("boom").toList)
     (by decide) rfl⟩

/-
Claim C4.
-/

/-- C4 (counterexample): with a prior version of a registered (one chunk),
adding a again and immediately removing it does not restore the pre-add
state: the document count drops from 1 to 0 and the chunk count from 1 to 0,
because add deleted the prior version before storing the new one. -/
theorem C4_counterexample :
    exVS.documents.length = 1 ∧
    exVS.collection.length = 1 ∧
    (remove_document (add_document okOracle exVS (("a").toList) [exChunkNew]).1
        (("a").toList)).1.documents.length = 0 ∧
    (remove_document (add_document okOracle exVS (("a").toList) [exChunkNew]).1
        (("a").toList)).1.collection.length = 0 :=
  ⟨rfl, rfl, by decide, by decide⟩

/-- C4 (amended): add followed immediately by remove restores the pre-add
state bit for bit when the added name was not registered before the add (the
embedding succeeding, and the fresh ids absent from the collection, which is
state well-formedness). When a prior version of the same name was
registered, the add permanently deletes it first, so the pre-add state is
not restored (see the counterexample). -/
theorem C4_amended_add_remove (oracle : EmbedOracle) (st : VSState)
    (document_name : List Char) (chunks : List Chunk) (embs : List Nat)
    (hfresh : dictGet st.documents document_name = none)
    (hc : chunks ≠ [])
    (he : get_embeddings_batch oracle (chunks.map Chunk.text) = .ok embs)
    (hids : ∀ en ∈ st.collection, en.id ∉ chunkIds document_name chunks.length) :
    remove_document (add_document oracle st document_name chunks).1 document_name
      = (st, true) := by
  have ha : st.collection.filter
      (fun en : Entry => decide (en.id ∉ chunkIds document_name chunks.length))
      = st.collection := by
    refine List.filter_eq_self.mpr ?_
    intro en hen
    simpa using hids en hen
  have hb : (mkEntries document_name 0 chunks embs).filter
      (fun en : Entry => decide (en.id ∉ chunkIds document_name chunks.length)) = [] := by
    refine List.filter_eq_nil_iff.mpr ?_
    intro en hen
    obtain ⟨j, hj, hid⟩ := mkEntries_id document_name chunks embs 0 en hen
    simp only [decide_eq_true_eq, Decidable.not_not]
    rw [hid, Nat.zero_add]
    exact chunkId_mem document_name j chunks.length hj
  have h1 : (st.collection ++ mkEntries document_name 0 chunks embs).filter
      (fun en : Entry => decide (en.id ∉ chunkIds document_name chunks.length))
      = st.collection := by
    rw [List.filter_append, ha, hb, List.append_nil]
  have h2 : dictDel (st.documents ++ [(document_name,
      (⟨chunks.length, chunkIds document_name chunks.length⟩ : DocRecord))]) document_name
      = st.documents := by
    have hsplit : dictDel (st.documents ++ [(document_name,
        (⟨chunks.length, chunkIds document_name chunks.length⟩ : DocRecord))]) document_name
        = dictDel st.documents document_name
          ++ dictDel [(document_name,
              (⟨chunks.length, chunkIds document_name chunks.length⟩ : DocRecord))]
            document_name := by
      unfold dictDel
      exact List.filter_append st.documents _
    rw [hsplit, dictDel_eq_self st.documents document_name hfresh]
    have hone : dictDel [(document_name,
        (⟨chunks.length, chunkIds document_name chunks.length⟩ : DocRecord))]
        document_name = [] := by
      simp [dictDel]
    rw [hone, List.append_nil]
  unfold add_document
  rw [if_neg hc, he]
  simp only [hfresh, Option.isSome_none, Bool.false_eq_true, if_false]
  unfold remove_document dictSet
  rw [hfresh]
  simp only [Option.isSome_none, Bool.false_eq_true, if_false]
  rw [dictGet_append_none st.documents _ document_name hfresh]
  rw [show dictGet [(document_name,
      (⟨chunks.length, chunkIds document_name chunks.length⟩ : DocRecord))] document_name
    = some ⟨chunks.length, chunkIds document_name chunks.length⟩ from by simp [dictGet]]
  dsimp only
  rw [h1, h2]

/-- Witness for C4_amended_add_remove on an empty store. -/
theorem C4_amended_add_remove_witness :
    dictGet ([] : List (List Char × DocRecord)) (("a").toList) = none ∧
    ([exChunkNew] ≠ ([] : List Chunk)) ∧
    get_embeddings_batch okOracle ([exChunkNew].map Chunk.text) = .ok [0] ∧
    (∀ en ∈ (⟨[], []⟩ : VSState).collection,
        en.id ∉ chunkIds (("a").toList) [exChunkNew].length) ∧
    remove_document (add_document okOracle (⟨[], []⟩ : VSState) (("a").toList)
        [exChunkNew]).1 (("a").toList) = ((⟨[], []⟩ : VSState), true) :=
  ⟨rfl, by decide, rfl, fun en hen => absurd hen (List.not_mem_nil en),
   C4_amended_add_remove okOracle (⟨[], []⟩ : VSState) (("a").toList) [exChunkNew] [0]
     rfl (by decide) rfl (fun en hen => absurd hen (List.not_mem_nil en))⟩

/-
Claim C5.
-/

/-- C5 (counterexample): re-uploading a (whose old version has the single
chunk id doc_a_0) with one new chunk reuses the id string doc_a_0, so this
chunk id of the old version does remain in the index afterwards, attached to
the new text. -/
theorem C5_counterexample :
    dictGet exVS.documents (("a").toList) = some ⟨1, [chunkId (("a").toList) 0]⟩ ∧
    (chunkId (("a").toList) 0)
        ∈ ((add_document okOracle exVS (("a").toList) [exChunkNew]).1.collection.map
            Entry.id) ∧
    ((add_document okOracle exVS (("a").toList) [exChunkNew]).1.collection.map
        Entry.text) = [("new").toList] :=
  ⟨rfl, by decide, by decide⟩

/-- C5 (amended): re-uploading a registered name replaces the prior version:
afterwards the registry holds exactly one entry for the name, its
chunk_count equals the new chunk count (not the sum), and the collection is
the old collection minus the chunks registered to the prior version plus the
new entries. The chunk id strings doc_name_i are reused by the new version,
so an id of the old version can remain in the index as the identifier of a
new chunk, which is what refutes the literal id clause of the claim. -/
theorem C5_amended_replacement (oracle : EmbedOracle) (st : VSState)
    (document_name : List Char) (chunks : List Chunk) (embs : List Nat) (r : DocRecord)
    (hreg : dictGet st.documents document_name = some r)
    (hc : chunks ≠ [])
    (he : get_embeddings_batch oracle (chunks.map Chunk.text) = .ok embs) :
    dictGet (add_document oracle st document_name chunks).1.documents document_name
        = some ⟨chunks.length, chunkIds document_name chunks.length⟩ ∧
    ((add_document oracle st document_name chunks).1.documents.filter
        (fun p => decide (p.1 = document_name))).length = 1 ∧
    (add_document oracle st document_name chunks).1.collection
        = st.collection.filter (fun en : Entry => decide (en.id ∉ r.chunk_ids))
            ++ mkEntries document_name 0 chunks embs := by
  unfold add_document
  rw [if_neg hc, he]
  simp only [hreg, Option.isSome_some, if_true]
  unfold remove_document
  rw [hreg]
  unfold dictSet
  rw [dictGet_del_self st.documents document_name]
  simp only [Option.isSome_none, Bool.false_eq_true, if_false]
  refine ⟨?_, ?_, ?_⟩
  · rw [dictGet_append_none _ _ _ (dictGet_del_self st.documents document_name)]
    simp [dictGet]
  · rw [List.filter_append, dictDel_filter_self]
    simp
  · trivial

/-- Witness for C5_amended_replacement on the one-document store. -/
theorem C5_amended_replacement_witness :
    dictGet exVS.documents (("a").toList) = some ⟨1, [chunkId (("a").toList) 0]⟩ ∧
    ([exChunkNew] ≠ ([] : List Chunk)) ∧
    get_embeddings_batch okOracle ([exChunkNew].map Chunk.text) = .ok [0] ∧
    (dictGet (add_document okOracle exVS (("a").toList) [exChunkNew]).1.documents
        (("a").toList)
       = some ⟨[exChunkNew].length, chunkIds (("a").toList) [exChunkNew].length⟩ ∧
     ((add_document okOracle exVS (("a").toList) [exChunkNew]).1.documents.filter
        (fun p => decide (p.1 = ("a").toList))).length = 1 ∧
     (add_document okOracle exVS (("a").toList) [exChunkNew]).1.collection
       = exVS.collection.filter
           (fun en : Entry => decide (en.id ∉ [chunkId (("a").toList) 0]))
           ++ mkEntries (("a").toList) 0 [exChunkNew] [0]) :=
  ⟨rfl, by decide, rfl,
   C5_amended_replacement okOracle exVS (("a").toList) [exChunkNew] [0]
     ⟨1, [chunkId (("a").toList) 0]⟩ rfl (by decide) rfl⟩

/-
Claim C6.
-/

/-- C6 (confirmed): when the question embedding succeeds, query returns a
normal result list (never an exception) of length at most min k (total
indexed chunks), sorted by ascending distance; on an empty index it is the
empty sequence. The ascending order comes from the modeled backend contract
(chromaQuery); the cap and the empty-index behavior come from
VectorStore.query itself. -/
theorem C6_query_cap_sorted (oracle : EmbedOracle) (dist : Entry → Int)
    (st : VSState) (question : List Char) (k : Nat)
    (document_filter : Option (List Char)) (emb : Nat)
    (h : oracle question = .ok emb) :
    (vs_query oracle dist st question k document_filter).isOk = true ∧
    ∀ rs, vs_query oracle dist st question k document_filter = .ok rs →
      rs.length ≤ min k st.collection.length ∧
      List.Sorted (fun a b => a ≤ b) (rs.map QueryResult.distance) ∧
      (st.collection = [] → rs = []) := by
  haveI htot : IsTotal Entry (fun a b => dist a ≤ dist b) :=
    ⟨fun a b => le_total (dist a) (dist b)⟩
  haveI htr : IsTrans Entry (fun a b => dist a ≤ dist b) :=
    ⟨fun a b c hab hbc => le_trans hab hbc⟩
  unfold vs_query
  rw [h]
  refine ⟨rfl, ?_⟩
  intro rs hrs
  simp only [Except.ok.injEq] at hrs
  subst hrs
  refine ⟨?_, ?_, ?_⟩
  · cases document_filter with
    | none =>
      simp only [List.length_map, chromaQuery, List.length_take]
      have hperm := (List.perm_insertionSort
        (fun a b : Entry => dist a ≤ dist b) st.collection).length_eq
      rcases Nat.eq_zero_or_pos st.collection.length with h0 | h0
      · rw [if_neg (by omega)]
        omega
      · rw [if_pos h0]
        omega
    | some dd =>
      simp only [List.length_map, chromaQuery, List.length_take]
      have hlen : (st.collection.filter
          (fun e : Entry => decide (e.document = dd))).length ≤ st.collection.length :=
        List.length_filter_le _ _
      have hperm := (List.perm_insertionSort
        (fun a b : Entry => dist a ≤ dist b)
        (st.collection.filter (fun e : Entry => decide (e.document = dd)))).length_eq
      rcases Nat.eq_zero_or_pos st.collection.length with h0 | h0
      · rw [if_neg (by omega)]
        omega
      · rw [if_pos h0]
        omega
  · have hsorted : List.Sorted (fun a b : Entry => dist a ≤ dist b)
        (chromaQuery dist st.collection document_filter
          (if 0 < st.collection.length then min k st.collection.length else 1)) := by
      unfold chromaQuery
      exact (List.sorted_insertionSort _ _).sublist (List.take_sublist _ _)
    simp only [List.map_map]
    exact List.pairwise_map.2 hsorted
  · intro hc
    rw [hc]
    cases document_filter <;> simp [chromaQuery]

/-- Witness for C6_query_cap_sorted on a one-chunk store; the result list at
these arguments is the single formatted entry. -/
theorem C6_query_cap_sorted_witness :
    okOracle (("q").toList) = .ok 0 ∧
    (vs_query okOracle exDist exVS (("q").toList) 5 none).isOk = true ∧
    ([(⟨("hello").toList, ("a").toList, 1, 0⟩ : QueryResult)].length
        ≤ min 5 exVS.collection.length ∧
      List.Sorted (fun a b => a ≤ b)
        ([(⟨("hello").toList, ("a").toList, 1, 0⟩ : QueryResult)].map QueryResult.distance) ∧
      (exVS.collection = [] → [(⟨("hello").toList, ("a").toList, 1, 0⟩ : QueryResult)] = [])) :=
  ⟨rfl,
   (C6_query_cap_sorted okOracle exDist exVS (("q").toList) 5 none 0 rfl).1,
   (C6_query_cap_sorted okOracle exDist exVS (("q").toList) 5 none 0 rfl).2
     [⟨("hello").toList, ("a").toList, 1, 0⟩] (by rfl)⟩

/-
Claim C7.
-/

theorem foldl_add_to_history (m : Nat) (hm : 0 < m) :
    ∀ (L : List Exchange) (h : List Exchange), h.length ≤ 2 * m →
      L.foldl (fun acc e => add_to_history m e.timestamp acc e.question e.answer) h
        = (h ++ L).drop ((h ++ L).length - 2 * m) := by
  intro L
  induction L with
  | nil =>
    intro h hh
    simp only [List.foldl_nil, List.append_nil]
    rw [Nat.sub_eq_zero_of_le hh, List.drop_zero]
  | cons e L ih =>
    intro h hh
    simp only [List.foldl_cons]
    have hrw : add_to_history m e.timestamp h e.question e.answer
        = (if 2 * m < (h ++ [e]).length then pyTail (h ++ [e]) (2 * m) else h ++ [e]) := rfl
    by_cases hlen : 2 * m < (h ++ [e]).length
    · have hhm : h.length = 2 * m := by
        simp only [List.length_append, List.length_cons, List.length_nil] at hlen
        omega
      have h1 : add_to_history m e.timestamp h e.question e.answer = (h ++ [e]).drop 1 := by
        rw [hrw, if_pos hlen]
        unfold pyTail
        rw [if_neg (by omega)]
        congr 1
        simp only [List.length_append, List.length_cons, List.length_nil]
        omega
      rw [h1, ih _ (by
        simp only [List.length_drop, List.length_append, List.length_cons, List.length_nil]
        omega)]
      have h2 : (h ++ [e]).drop 1 ++ L = ((h ++ [e]) ++ L).drop 1 :=
        (List.drop_append_of_le_length (by simp)).symm
      rw [h2]
      have h3 : (h ++ [e]) ++ L = h ++ e :: L := by simp
      rw [h3, List.drop_drop]
      congr 1
      simp only [List.length_drop, List.length_append, List.length_cons]
      omega
    · have h1 : add_to_history m e.timestamp h e.question e.answer = h ++ [e] := by
        rw [hrw, if_neg hlen]
      simp only [List.length_append, List.length_cons, List.length_nil] at hlen
      rw [h1, ih _ (by simp; omega)]
      congr 1 <;> simp

/-- C7 (confirmed for a positive max_conversation_history, as configured; the
config value is 5): after any sequence of appends through _add_to_history the
history holds at most 2 times max_conversation_history entries, eviction
keeps exactly the chronologically last entries (the oldest are dropped
first), and the conversation block of the prompt is built from at most the
most recent max_conversation_history exchanges in chronological order. -/
theorem C7_history_bound (m : Nat) (hm : 0 < m) (L : List Exchange) :
    (replayHistory m L).length ≤ 2 * m ∧
    replayHistory m L = L.drop (L.length - 2 * m) ∧
    build_conversation_context m (replayHistory m L)
      = (if replayHistory m L = [] then []
         else renderConv ((replayHistory m L).drop ((replayHistory m L).length - m))) := by
  have hc := foldl_add_to_history m hm L [] (by simp)
  simp only [List.nil_append] at hc
  rw [replayHistory]
  refine ⟨?_, hc, ?_⟩
  · rw [hc]
    simp only [List.length_drop]
    omega
  · unfold build_conversation_context
    split
    · rfl
    · unfold pyTail
      rw [if_neg (by omega)]

/-- Witness for C7_history_bound with max_conversation_history 1 and three
appended exchanges: only the last two survive. -/
theorem C7_history_bound_witness :
    0 < 1 ∧
    ((replayHistory 1 exL).length ≤ 2 * 1 ∧
     replayHistory 1 exL = exL.drop (exL.length - 2 * 1) ∧
     build_conversation_context 1 (replayHistory 1 exL)
       = (if replayHistory 1 exL = [] then []
          else renderConv ((replayHistory 1 exL).drop ((replayHistory 1 exL).length - 1)))) :=
  ⟨Nat.one_pos, C7_history_bound 1 Nat.one_pos exL⟩

/-
Claim C8.
-/

/-- C8 (confirmed): with zero documents registered, ask_question returns the
fixed upload-first answer with empty sources, empty documents_searched and no
error, leaves the engine state untouched, and makes no embedding or
generation backend call; the outcome is the same for every oracle. -/
theorem C8_empty_index_short_circuit (cfg : Config) (oracle : EmbedOracle)
    (dist : Entry → Int) (gen : GenOutcome) (now : Nat) (st : EngineState)
    (question : List Char) (document_filter : Option (List Char)) (mem : Bool)
    (h : st.vs.documents.length = 0) :
    ask_question cfg oracle dist gen now st question document_filter mem =
      { result := { answer := ("📚 Please upload a document first before asking questions.").toList,
                    sources := [], documents_searched := [], error := none },
        state := st, embed_calls := 0, gen_calls := 0 } := by
  unfold ask_question
  rw [if_pos h]

/-- Witness for C8_empty_index_short_circuit at a concrete empty engine. -/
theorem C8_empty_index_short_circuit_witness :
    exEngineEmpty.vs.documents.length = 0 ∧
    ask_question exCfg okOracle exDist GenOutcome.timeoutExpired 3 exEngineEmpty
        (("q").toList) none true =
      { result := { answer := ("📚 Please upload a document first before asking questions.").toList,
                    sources := [], documents_searched := [], error := none },
        state := exEngineEmpty, embed_calls := 0, gen_calls := 0 } :=
  ⟨rfl, C8_empty_index_short_circuit exCfg okOracle exDist GenOutcome.timeoutExpired 3
      exEngineEmpty (("q").toList) none true rfl⟩

/-
Claim C9.
-/

/-- C9 (confirmed): clearing the conversation empties the history and leaves
the vector store and every statistics field unchanged; statistics are reset
only by the full clear: clear_all zeroes the counters with a fresh session
start, ask_question only ever increases the question and chunk counters and
preserves documents_processed and session_start, and removing a document
leaves the statistics untouched. -/
theorem C9_clear_conversation_frame :
    (∀ st : EngineState, clear_conversation st
        = { vs := st.vs, history := [], stats := st.stats }) ∧
    (∀ (now : Nat) (st : EngineState), (clear_all now st).stats
        = { documents_processed := 0, questions_asked := 0,
            chunks_retrieved := 0, session_start := now }) ∧
    (∀ (cfg : Config) (oracle : EmbedOracle) (dist : Entry → Int) (gen : GenOutcome)
        (now : Nat) (st : EngineState) (q : List Char) (f : Option (List Char)) (mem : Bool),
        st.stats.questions_asked
            ≤ (ask_question cfg oracle dist gen now st q f mem).state.stats.questions_asked ∧
        st.stats.chunks_retrieved
            ≤ (ask_question cfg oracle dist gen now st q f mem).state.stats.chunks_retrieved ∧
        (ask_question cfg oracle dist gen now st q f mem).state.stats.documents_processed
            = st.stats.documents_processed ∧
        (ask_question cfg oracle dist gen now st q f mem).state.stats.session_start
            = st.stats.session_start) ∧
    (∀ (st : EngineState) (document_name : List Char),
        (engine_remove_document st document_name).1.stats = st.stats) := by
  refine ⟨fun st => rfl, fun now st => rfl, ?_, fun st document_name => rfl⟩
  intro cfg oracle dist gen now st q f mem
  unfold ask_question
  split
  · exact ⟨le_refl _, le_refl _, rfl, rfl⟩
  · split
    · exact ⟨le_refl _, le_refl _, rfl, rfl⟩
    · split
      · exact ⟨Nat.le_succ _, Nat.le_add_right _ _, rfl, rfl⟩
      · split
        · exact ⟨Nat.le_succ _, Nat.le_add_right _ _, rfl, rfl⟩
        · exact ⟨Nat.le_succ _, Nat.le_add_right _ _, rfl, rfl⟩

/-
Claim C10.
-/

/-- C10 (confirmed): removing document n deletes exactly the chunks whose ids
are registered to n and only the registry entry of n: for any other
registered document d, its registry record and the chunks tagged with d are
unchanged. The last hypothesis is well-formedness of the state: no chunk
tagged with d carries an id registered to n. -/
theorem C10_remove_frame (st : VSState) (n d : List Char) (r rd : DocRecord)
    (hnd : d ≠ n) (hn : dictGet st.documents n = some r)
    (hd : dictGet st.documents d = some rd)
    (hwf : ∀ en ∈ st.collection, en.document = d → en.id ∉ r.chunk_ids) :
    (remove_document st n).2 = true ∧
    (remove_document st n).1.collection
        = st.collection.filter (fun en : Entry => decide (en.id ∉ r.chunk_ids)) ∧
    dictGet (remove_document st n).1.documents n = none ∧
    dictGet (remove_document st n).1.documents d = some rd ∧
    (remove_document st n).1.collection.filter
        (fun en : Entry => decide (en.document = d))
      = st.collection.filter (fun en : Entry => decide (en.document = d)) := by
  unfold remove_document
  rw [hn]
  refine ⟨rfl, rfl, dictGet_del_self st.documents n, ?_, ?_⟩
  · rw [dictGet_del_ne st.documents n d hnd]
    exact hd
  · show (st.collection.filter _).filter _ = _
    rw [List.filter_filter]
    refine List.filter_congr ?_
    intro en hen
    by_cases hdoc : en.document = d
    · have : en.id ∉ r.chunk_ids := hwf en hen hdoc
      simp [hdoc, this]
    · simp [hdoc]

/-- Witness for C10_remove_frame on a two-document store. -/
theorem C10_remove_frame_witness :
    (("a").toList ≠ ("b").toList) ∧
    ((remove_document exVS2 (("b").toList)).2 = true ∧
     (remove_document exVS2 (("b").toList)).1.collection
        = exVS2.collection.filter
            (fun en : Entry => decide (en.id ∉ [chunkId (("b").toList) 0])) ∧
     dictGet (remove_document exVS2 (("b").toList)).1.documents (("b").toList) = none ∧
     dictGet (remove_document exVS2 (("b").toList)).1.documents (("a").toList)
        = some ⟨1, [chunkId (("a").toList) 0]⟩ ∧
     (remove_document exVS2 (("b").toList)).1.collection.filter
        (fun en : Entry => decide (en.document = ("a").toList))
       = exVS2.collection.filter
          (fun en : Entry => decide (en.document = ("a").toList))) :=
  ⟨by decide,
   C10_remove_frame exVS2 (("b").toList) (("a").toList)
     ⟨1, [chunkId (("b").toList) 0]⟩ ⟨1, [chunkId (("a").toList) 0]⟩
     (by decide) (by decide) (by decide) (by decide)⟩

end StudyBuddy
